import Mathlib

/-!
Verification of the incremental MySQL-to-Kafka sync program (src/main.go).

The program polls a set of source tables for rows with `id` greater than a
per-table high-water mark, serializes each batch to JSON, splits the bytes
into size-bounded Kafka messages carrying reassembly headers, and upserts the
high-water mark into a durable `tracking_table` after a successful publish.

This file shallow-embeds the relevant parts of `main.go`:
`sendSchemaInChunks` (the payload chunker), `fetchData`'s max-id accumulation
over dynamically-typed rows, the `syncTable` cycle (fetch, publish, commit,
wait) as a state-transition function, the query strings built by `fetchData`
and `GetSchema`, and `main`'s tracking-table initialization and goroutine
spawn loop. Machine integers are modeled as `Int`/`Nat`; payload bytes as
`List Nat`; fallible external calls (query, publish, commit) as explicit
cycle-environment outcomes.
-/

/-! ## Payload chunker (`sendSchemaInChunks`, src/main.go:109-143) -/

/-- A Kafka message header: string key, text-encoded value. -/
structure KafkaHeader where
  key : String
  value : String
deriving DecidableEq

/-- A Kafka message as built by `sendSchemaInChunks`: key, payload bytes, headers. -/
structure KafkaMessage where
  key : String
  value : List Nat
  headers : List KafkaHeader
deriving DecidableEq

/-- The chunk size the source hard-codes: `chunkSize := 5 * 1024 * 1024` (main.go:110). -/
def chunkSize : Nat := 5 * 1024 * 1024

/-- Number of parts: `int(math.Ceil(float64(len(schemaData)) / float64(chunkSize)))`
(main.go:111), written as the integer ceiling `(len + cs - 1) / cs`, which agrees
with the float computation for all representable payload lengths. -/
def totalPartsOf (len cs : Nat) : Nat := (len + cs - 1) / cs

/-- The sequence of messages built by the loop of `sendSchemaInChunks`
(main.go:113-131), parameterized by the chunk size. Part `i` is
`schemaData[start:end]` with `start = i*cs` and `end = min (start+cs) len`;
its headers carry the constant `schema_id`, the part number and the total
part count, exactly as in the source. -/
def sendSchemaInChunksMsgs (schemaData : List Nat) (cs : Nat) : List KafkaMessage :=
  (List.range (totalPartsOf schemaData.length cs)).map (fun i =>
    let start := i * cs
    let stop := min (start + cs) schemaData.length
    { key := "schema_key"
      value := (schemaData.drop start).take (stop - start)
      headers := [⟨"schema_id", "unique_schema_id"⟩,
                  ⟨"part_number", toString i⟩,
                  ⟨"total_parts", toString (totalPartsOf schemaData.length cs)⟩] })

/-- Concatenation of a list of byte strings (reassembly of parts in order). -/
def concatBytes (l : List (List Nat)) : List Nat := l.foldr (fun a b => a ++ b) []

theorem concatBytes_nil : concatBytes [] = [] := rfl

theorem concatBytes_cons (a : List Nat) (l : List (List Nat)) :
    concatBytes (a :: l) = a ++ concatBytes l := rfl

/-- The clamped slice taken by the loop equals a plain `take cs` of the tail. -/
theorem take_clamp (p : List Nat) (s cs : Nat) :
    (p.drop s).take (min (s + cs) p.length - s) = (p.drop s).take cs := by
  rcases Nat.le_total (s + cs) p.length with h | h
  · rw [min_eq_left h]
    congr 1
    omega
  · rw [min_eq_right h]
    rw [List.take_of_length_le (by simp), List.take_of_length_le (by simp; omega)]

/-- Concatenating `n` consecutive `cs`-sized slices of `p` yields `p.take (n*cs)`. -/
theorem concat_chunks (cs : Nat) :
    ∀ (n : Nat) (p : List Nat),
      concatBytes ((List.range n).map (fun i => (p.drop (i * cs)).take cs)) = p.take (n * cs) := by
  intro n
  induction n with
  | zero => intro p; simp [concatBytes]
  | succ n ih =>
    intro p
    rw [List.range_succ_eq_map, List.map_cons, List.map_map]
    have hfun : ((fun i => (p.drop (i * cs)).take cs) ∘ Nat.succ)
        = (fun i => ((p.drop cs).drop (i * cs)).take cs) := by
      funext i
      simp only [Function.comp_apply]
      rw [List.drop_drop]
      congr 2
      rw [Nat.succ_mul]
      omega
    rw [concatBytes_cons, hfun, ih (p.drop cs)]
    simp only [Nat.zero_mul, List.drop_zero]
    rw [show (n + 1) * cs = cs + n * cs by rw [Nat.succ_mul]; omega]
    rw [List.take_add]

/-- The payload length never exceeds `totalParts * cs`. -/
theorem len_le_totalParts_mul (len cs : Nat) (h : 0 < cs) :
    len ≤ totalPartsOf len cs * cs := by
  have key : ∀ m r : Nat, m + r = len + cs - 1 → r < cs → len ≤ m := by
    intro m r h1 h2; omega
  have h1 := key (cs * ((len + cs - 1) / cs)) ((len + cs - 1) % cs)
    (Nat.div_add_mod _ _) (Nat.mod_lt _ h)
  unfold totalPartsOf
  rw [Nat.mul_comm]
  exact h1

/-- `totalPartsOf` is the least part count covering the payload. -/
theorem totalParts_least (len cs m : Nat) (h : 0 < cs) (hm : len ≤ m * cs) :
    totalPartsOf len cs ≤ m := by
  unfold totalPartsOf
  have h1 : len + cs - 1 < (m + 1) * cs := by
    have h2 : (m + 1) * cs = m * cs + cs := by rw [Nat.succ_mul]
    rw [h2]
    omega
  have := (Nat.div_lt_iff_lt_mul h).mpr h1
  omega

/-- C2: for every payload and every positive max_part_size, the chunker produces
`totalParts = ceil(len/cs)` parts (characterized as the least count whose parts
cover the payload), part `i` carries exactly the byte range
`[i*cs, min((i+1)*cs, len))` together with its part-number and total-parts
headers, and concatenating the parts in part-number order reproduces the
original byte sequence. -/
theorem chunk_round_trip (p : List Nat) (cs : Nat) (h : 0 < cs) :
    (sendSchemaInChunksMsgs p cs).length = totalPartsOf p.length cs ∧
    p.length ≤ totalPartsOf p.length cs * cs ∧
    (∀ m, p.length ≤ m * cs → totalPartsOf p.length cs ≤ m) ∧
    (∀ i, (hi : i < (sendSchemaInChunksMsgs p cs).length) →
      (sendSchemaInChunksMsgs p cs)[i].value
        = (p.drop (i * cs)).take (min ((i + 1) * cs) p.length - i * cs) ∧
      (sendSchemaInChunksMsgs p cs)[i].headers
        = [⟨"schema_id", "unique_schema_id"⟩,
           ⟨"part_number", toString i⟩,
           ⟨"total_parts", toString (totalPartsOf p.length cs)⟩]) ∧
    concatBytes ((sendSchemaInChunksMsgs p cs).map KafkaMessage.value) = p := by
  refine ⟨?_, len_le_totalParts_mul p.length cs h, ?_, ?_, ?_⟩
  · simp [sendSchemaInChunksMsgs]
  · intro m hm
    exact totalParts_least p.length cs m h hm
  · intro i hi
    constructor
    · simp only [sendSchemaInChunksMsgs, List.getElem_map, List.getElem_range]
      congr 2
      rw [Nat.succ_mul]
    · simp only [sendSchemaInChunksMsgs, List.getElem_map, List.getElem_range]
  · have hmap : (sendSchemaInChunksMsgs p cs).map KafkaMessage.value
        = (List.range (totalPartsOf p.length cs)).map
            (fun i => (p.drop (i * cs)).take cs) := by
      simp only [sendSchemaInChunksMsgs, List.map_map]
      apply List.map_congr_left
      intro i _
      simp only [Function.comp_apply]
      exact take_clamp p (i * cs) cs
    rw [hmap, concat_chunks]
    exact List.take_of_length_le (len_le_totalParts_mul p.length cs h)

/-- C2 witness: the round-trip theorem instantiated at payload `[1,2,3]` and
chunk size 2. -/
theorem chunk_round_trip_witness :
    0 < 2 ∧
    ((sendSchemaInChunksMsgs [1, 2, 3] 2).length = totalPartsOf 3 2 ∧
    3 ≤ totalPartsOf 3 2 * 2 ∧
    (∀ m, 3 ≤ m * 2 → totalPartsOf 3 2 ≤ m) ∧
    (∀ i, (hi : i < (sendSchemaInChunksMsgs [1, 2, 3] 2).length) →
      (sendSchemaInChunksMsgs [1, 2, 3] 2)[i].value
        = (([1, 2, 3] : List Nat).drop (i * 2)).take (min ((i + 1) * 2) 3 - i * 2) ∧
      (sendSchemaInChunksMsgs [1, 2, 3] 2)[i].headers
        = [⟨"schema_id", "unique_schema_id"⟩,
           ⟨"part_number", toString i⟩,
           ⟨"total_parts", toString (totalPartsOf 3 2)⟩]) ∧
    concatBytes ((sendSchemaInChunksMsgs [1, 2, 3] 2).map KafkaMessage.value) = [1, 2, 3]) :=
  ⟨by decide, chunk_round_trip [1, 2, 3] 2 (by decide)⟩

/-- C5 counterexample: with the source's chunk size, the empty payload yields
zero parts and `totalParts = 0`, not one zero-length part with `totalParts = 1`
as claimed. -/
theorem empty_payload_zero_parts_cex :
    sendSchemaInChunksMsgs [] chunkSize = [] ∧
    totalPartsOf 0 chunkSize = 0 ∧
    ¬(sendSchemaInChunksMsgs [] chunkSize).length = 1 := by decide

/-- C5 amended: for every positive chunk size, the empty payload yields zero
parts with `totalParts = 0`; concatenating the (zero) parts still reconstructs
the empty payload and `totalParts` equals the number of parts produced. -/
theorem empty_payload_zero_parts (cs : Nat) (h : 0 < cs) :
    sendSchemaInChunksMsgs [] cs = [] ∧
    totalPartsOf 0 cs = 0 ∧
    (sendSchemaInChunksMsgs [] cs).length = totalPartsOf 0 cs ∧
    concatBytes ((sendSchemaInChunksMsgs [] cs).map KafkaMessage.value) = [] := by
  have h0 : totalPartsOf 0 cs = 0 := by
    unfold totalPartsOf
    apply Nat.div_eq_of_lt
    omega
  refine ⟨?_, h0, ?_, ?_⟩ <;>
    simp [sendSchemaInChunksMsgs, h0, concatBytes]

/-- C5 witness: the amended statement instantiated at the source's chunk size. -/
theorem empty_payload_zero_parts_witness :
    0 < chunkSize ∧
    (sendSchemaInChunksMsgs [] chunkSize = [] ∧
    totalPartsOf 0 chunkSize = 0 ∧
    (sendSchemaInChunksMsgs [] chunkSize).length = totalPartsOf 0 chunkSize ∧
    concatBytes ((sendSchemaInChunksMsgs [] chunkSize).map KafkaMessage.value) = []) :=
  ⟨by decide, empty_payload_zero_parts chunkSize (by decide)⟩

/-- C8: two distinct payloads chunked by the source both stamp every part with
the constant header `schema_id = "unique_schema_id"` (and the constant key
`"schema_key"`), so `schema_id` is not unique per logical payload: a consumer
reassembling by `schema_id` sees conflicting single-part payloads under the
same identifier. -/
theorem schema_id_constant_across_payloads :
    (sendSchemaInChunksMsgs [1] chunkSize).map KafkaMessage.headers
      = [[⟨"schema_id", "unique_schema_id"⟩, ⟨"part_number", "0"⟩, ⟨"total_parts", "1"⟩]] ∧
    (sendSchemaInChunksMsgs [2] chunkSize).map KafkaMessage.headers
      = [[⟨"schema_id", "unique_schema_id"⟩, ⟨"part_number", "0"⟩, ⟨"total_parts", "1"⟩]] ∧
    (sendSchemaInChunksMsgs [1] chunkSize).map KafkaMessage.value
      ≠ (sendSchemaInChunksMsgs [2] chunkSize).map KafkaMessage.value ∧
    (∀ m ∈ sendSchemaInChunksMsgs [1] chunkSize, m.key = "schema_key") ∧
    (∀ m ∈ sendSchemaInChunksMsgs [2] chunkSize, m.key = "schema_key") := by decide

/-! ## Row model and `fetchData`'s max-id accumulation (src/main.go:162-200) -/

/-- A dynamically-typed scalar as delivered into `map[string]interface{}` by the
SQL driver: a 64-bit integer, a byte string, a text string, or NULL. -/
inductive GoValue
  | int64 (i : Int)
  | bytes (bs : List Nat)
  | str (s : String)
  | null
deriving DecidableEq

/-- A fetched row: the `entry` map from column name to value (main.go:188-191),
as an association list. -/
abbrev Row := List (String × GoValue)

/-- The type assertion `entry["id"].(int64)` (main.go:194): the `id` column's
value when present and of Go type int64, `none` otherwise. -/
def rowId (r : Row) : Option Int :=
  match r.lookup ("id") with
  | some (GoValue.int64 i) => some i
  | _ => none

/-- One step of `fetchData`'s accumulation: `if ok && id > maxID { maxID = id }`
(main.go:194-196). -/
def maxIdStep (m : Int) (r : Row) : Int :=
  match rowId r with
  | some i => if m < i then i else m
  | none => m

/-- `fetchData`'s returned `maxID`: the fold over the scanned rows starting at 0. -/
def fetchMaxId (rows : List Row) : Int := rows.foldl maxIdStep 0

/-- The int64 `id` values present in a batch, in scan order. -/
def rowIds (rows : List Row) : List Int := rows.filterMap rowId

theorem foldl_maxIdStep_le (l : List Row) (m : Int) : m ≤ l.foldl maxIdStep m := by
  induction l generalizing m with
  | nil => exact le_refl m
  | cons a t ih =>
    simp only [List.foldl_cons]
    refine le_trans ?_ (ih (maxIdStep m a))
    unfold maxIdStep
    cases rowId a with
    | none => exact le_refl m
    | some i =>
      dsimp only
      split <;> omega

theorem foldl_maxIdStep_ub (l : List Row) (m : Int) :
    ∀ r ∈ l, ∀ i, rowId r = some i → i ≤ l.foldl maxIdStep m := by
  induction l generalizing m with
  | nil => intro r hr; exact absurd hr (List.not_mem_nil r)
  | cons a t ih =>
    intro r hr i hi
    simp only [List.foldl_cons]
    rcases List.mem_cons.mp hr with rfl | hrt
    · refine le_trans ?_ (foldl_maxIdStep_le t (maxIdStep m r))
      unfold maxIdStep
      rw [hi]
      dsimp only
      split <;> omega
    · exact ih (maxIdStep m a) r hrt i hi

theorem foldl_maxIdStep_mem (l : List Row) (m : Int) :
    l.foldl maxIdStep m = m ∨ (l.foldl maxIdStep m) ∈ rowIds l := by
  induction l generalizing m with
  | nil => left; rfl
  | cons a t ih =>
    simp only [List.foldl_cons]
    have hids : rowIds (a :: t) = (rowId a).toList ++ rowIds t := by
      unfold rowIds
      cases ha : rowId a <;> simp [List.filterMap_cons, ha]
    rcases ih (maxIdStep m a) with h | h
    · rw [h]
      unfold maxIdStep
      cases ha : rowId a with
      | none => left; rfl
      | some i =>
        dsimp only
        split
        · right
          rw [hids, ha]
          simp
        · left; rfl
    · right
      rw [hids]
      exact List.mem_append_right _ h

theorem foldl_maxIdStep_none (l : List Row) (m : Int) (h : ∀ r ∈ l, rowId r = none) :
    l.foldl maxIdStep m = m := by
  induction l generalizing m with
  | nil => rfl
  | cons a t ih =>
    simp only [List.foldl_cons]
    have ha : maxIdStep m a = m := by
      unfold maxIdStep
      rw [h a (List.mem_cons_self a t)]
    rw [ha]
    exact ih m (fun r hr => h r (List.mem_cons_of_mem a hr))

/-- When every fetched row carries an int64 id strictly above the (nonnegative)
offset, `fetchData`'s `maxID` is the maximum of those ids: above the offset,
attained by some row, and an upper bound for all of them. -/
theorem fetchMaxId_spec (data : List Row) (b : Int) (hb : 0 ≤ b) (hne : data ≠ [])
    (hgood : ∀ r ∈ data, ∃ i, rowId r = some i ∧ b < i) :
    b < fetchMaxId data ∧ fetchMaxId data ∈ rowIds data ∧
    ∀ q ∈ rowIds data, q ≤ fetchMaxId data := by
  obtain ⟨r0, hr0⟩ : ∃ r, r ∈ data := by
    cases data with
    | nil => exact absurd rfl hne
    | cons a t => exact ⟨a, List.mem_cons_self a t⟩
  obtain ⟨i0, hi0, hbi0⟩ := hgood r0 hr0
  have hub := foldl_maxIdStep_ub data 0
  have h1 : i0 ≤ fetchMaxId data := hub r0 hr0 i0 hi0
  have hlt : b < fetchMaxId data := lt_of_lt_of_le hbi0 h1
  have hmem : fetchMaxId data ∈ rowIds data := by
    rcases foldl_maxIdStep_mem data 0 with h | h
    · exfalso
      rw [fetchMaxId] at hlt
      rw [h] at hlt
      omega
    · exact h
  refine ⟨hlt, hmem, ?_⟩
  intro q hq
  rcases List.mem_filterMap.mp hq with ⟨r, hr, hrq⟩
  exact hub r hr q hrq

/-! ## The `syncTable` cycle (src/main.go:203-241) -/

/-- External outcomes of one cycle of `syncTable`: the fetch result (`none`
models a query error), whether `sendSchemaInChunks` succeeded, and whether the
tracking-table upsert succeeded. -/
structure CycleEnv where
  fetched : Option (List Row)
  publishOk : Bool
  commitOk : Bool
deriving DecidableEq

/-- The per-table loop state: the in-memory `tracking.LastSentID`, and whether
the loop has returned (which the source does on a failed commit, main.go:229). -/
structure LoopState where
  lastSentId : Int
  halted : Bool
deriving DecidableEq

/-- Observable output of one cycle: the values passed to the tracking-table
upsert, and the int64 ids of rows successfully published this cycle. -/
structure CycleOut where
  commits : List Int
  pubs : List Int
deriving DecidableEq

/-- One cycle of `syncTable` (main.go:204-240): fetch (error: log, sleep,
continue); empty batch: sleep; nonempty batch: publish via
`sendSchemaInChunks` (error: log, sleep, continue with the offset unchanged);
on publish success set `tracking.LastSentID = lastID` and upsert it into
`tracking_table`, returning from the loop if the upsert fails. A halted loop
does nothing. (JSON serialization, which the source treats as fatal to the
process, is modeled as always succeeding, as no claim depends on it.) -/
def syncCycle (s : LoopState) (e : CycleEnv) : LoopState × CycleOut :=
  if s.halted then (s, ⟨[], []⟩)
  else
    match e.fetched with
    | none => (s, ⟨[], []⟩)
    | some data =>
      if 0 < data.length then
        if e.publishOk then
          if e.commitOk then
            (⟨fetchMaxId data, false⟩, ⟨[fetchMaxId data], rowIds data⟩)
          else
            (⟨fetchMaxId data, true⟩, ⟨[fetchMaxId data], rowIds data⟩)
        else (s, ⟨[], []⟩)
      else (s, ⟨[], []⟩)

/-- A cycle either changes nothing, or publishes a nonempty batch and passes
its max id to the commit, halting exactly when the commit fails. -/
theorem syncCycle_cases (s : LoopState) (e : CycleEnv) :
    syncCycle s e = (s, ⟨[], []⟩) ∨
    (∃ data, e.fetched = some data ∧ data ≠ [] ∧ e.publishOk = true ∧
      s.halted = false ∧
      syncCycle s e = (⟨fetchMaxId data, !e.commitOk⟩, ⟨[fetchMaxId data], rowIds data⟩)) := by
  by_cases hh : s.halted = true
  · left; simp [syncCycle, hh]
  · have hh' : s.halted = false := by
      cases hb : s.halted
      · rfl
      · exact absurd hb hh
    cases hf : e.fetched with
    | none => left; simp [syncCycle, hh', hf]
    | some data =>
      by_cases hl : 0 < data.length
      · by_cases hp : e.publishOk = true
        · right
          refine ⟨data, rfl, ?_, hp, hh', ?_⟩
          · intro hdnil
            rw [hdnil] at hl
            simp at hl
          · by_cases hc : e.commitOk = true
            · simp [syncCycle, hh', hf, hl, hp, hc]
            · have hc' : e.commitOk = false := by
                cases hb : e.commitOk
                · rfl
                · exact absurd hb hc
              simp [syncCycle, hh', hf, hl, hp, hc']
        · left; simp [syncCycle, hh', hf, hl, hp]
      · left; simp [syncCycle, hh', hf, hl]

/-- A halted loop stays halted and produces no commits or publishes. -/
theorem syncCycle_halted (x : Int) (e : CycleEnv) :
    syncCycle ⟨x, true⟩ e = (⟨x, true⟩, ⟨[], []⟩) := by
  simp [syncCycle]

/-- Running `syncTable` over a sequence of cycle environments: the final state
and the per-cycle outputs. -/
def syncRun (s : LoopState) : List CycleEnv → LoopState × List CycleOut
  | [] => (s, [])
  | e :: es =>
    let p := syncCycle s e
    let q := syncRun p.1 es
    (q.1, p.2 :: q.2)

/-- All values passed to the tracking-table upsert, in order. -/
def commitsOf (outs : List CycleOut) : List Int :=
  outs.foldr (fun o acc => o.commits ++ acc) []

/-- All ids of successfully published rows, in order. -/
def pubsOf (outs : List CycleOut) : List Int :=
  outs.foldr (fun o acc => o.pubs ++ acc) []

theorem commitsOf_cons (o : CycleOut) (outs : List CycleOut) :
    commitsOf (o :: outs) = o.commits ++ commitsOf outs := rfl

theorem pubsOf_cons (o : CycleOut) (outs : List CycleOut) :
    pubsOf (o :: outs) = o.pubs ++ pubsOf outs := rfl

/-- The source-query contract for one fetch (main.go:166): every returned row,
as delivered to Go, carries an int64 `id` strictly greater than the offset the
query was issued with. -/
def goodFetchB (since : Int) (e : CycleEnv) : Bool :=
  match e.fetched with
  | none => true
  | some data =>
    data.all (fun r =>
      match rowId r with
      | some i => decide (since < i)
      | none => false)

/-- The query contract holds at every cycle of a run, each fetch being issued
with the loop's offset at that cycle. -/
def goodTraceB (s : LoopState) : List CycleEnv → Bool
  | [] => true
  | e :: es => goodFetchB s.lastSentId e && goodTraceB (syncCycle s e).1 es

theorem goodFetchB_spec (since : Int) (e : CycleEnv) (data : List Row)
    (hg : goodFetchB since e = true) (hf : e.fetched = some data) :
    ∀ r ∈ data, ∃ i, rowId r = some i ∧ since < i := by
  unfold goodFetchB at hg
  rw [hf] at hg
  intro r hr
  have h1 := List.all_eq_true.mp hg r hr
  cases hi : rowId r with
  | none => rw [hi] at h1; exact absurd h1 (by simp)
  | some i =>
    rw [hi] at h1
    exact ⟨i, rfl, of_decide_eq_true h1⟩

/-- Shape invariant of a run's outputs relative to a lower bound `b` (the
offset when the run started): each cycle either commits and publishes nothing,
or publishes a batch and passes exactly its maximum published id — strictly
above `b` — to the commit, the bound rising to that value for the rest of the
run. -/
def OutsOk (b : Int) : List CycleOut → Prop
  | [] => True
  | o :: os =>
    (o.commits = [] ∧ o.pubs = [] ∧ OutsOk b os) ∨
    (∃ m, o.commits = [m] ∧ b < m ∧ m ∈ o.pubs ∧ (∀ q ∈ o.pubs, q ≤ m) ∧ OutsOk m os)

theorem syncRun_outsOk (envs : List CycleEnv) :
    ∀ s : LoopState, 0 ≤ s.lastSentId → goodTraceB s envs = true →
      OutsOk s.lastSentId (syncRun s envs).2 := by
  induction envs with
  | nil => intro s h0 hg; trivial
  | cons e es ih =>
    intro s h0 hg
    have hg2 : goodFetchB s.lastSentId e = true ∧ goodTraceB (syncCycle s e).1 es = true := by
      have : goodTraceB s (e :: es) = (goodFetchB s.lastSentId e && goodTraceB (syncCycle s e).1 es) := rfl
      rw [this] at hg
      exact Bool.and_eq_true_iff.mp hg
    have hrun : syncRun s (e :: es) =
        ((syncRun (syncCycle s e).1 es).1, (syncCycle s e).2 :: (syncRun (syncCycle s e).1 es).2) := rfl
    rw [hrun]
    rcases syncCycle_cases s e with hc | ⟨data, hf, hne, hp, hh, hc⟩
    · rw [hc] at hg2 ⊢
      left
      exact ⟨rfl, rfl, ih s h0 hg2.2⟩
    · have hgood := goodFetchB_spec s.lastSentId e data hg2.1 hf
      obtain ⟨hlt, hmem, hub⟩ := fetchMaxId_spec data s.lastSentId h0 hne hgood
      rw [hc] at hg2 ⊢
      right
      refine ⟨fetchMaxId data, rfl, hlt, hmem, hub, ?_⟩
      have h0' : 0 ≤ (⟨fetchMaxId data, !e.commitOk⟩ : LoopState).lastSentId := by
        show 0 ≤ fetchMaxId data
        omega
      exact ih ⟨fetchMaxId data, !e.commitOk⟩ h0' hg2.2

theorem mem_commitsOf (os : List CycleOut) (o : CycleOut) (c : Int)
    (ho : o ∈ os) (hc : c ∈ o.commits) : c ∈ commitsOf os := by
  induction os with
  | nil => exact absurd ho (List.not_mem_nil o)
  | cons a t ih =>
    rw [commitsOf_cons, List.mem_append]
    rcases List.mem_cons.mp ho with rfl | ht
    · left; exact hc
    · right; exact ih ht

theorem outsOk_commits_lb (os : List CycleOut) :
    ∀ b : Int, OutsOk b os → ∀ c ∈ commitsOf os, b < c := by
  induction os with
  | nil => intro b _ c hc; rw [show commitsOf [] = [] from rfl] at hc; exact absurd hc (List.not_mem_nil c)
  | cons o os ih =>
    intro b h c hc
    rw [commitsOf_cons, List.mem_append] at hc
    rcases h with ⟨hc0, _, hrest⟩ | ⟨m, hcm, hbm, _, _, hrest⟩
    · rcases hc with hc | hc
      · rw [hc0] at hc; exact absurd hc (List.not_mem_nil c)
      · exact ih b hrest c hc
    · rcases hc with hc | hc
      · rw [hcm] at hc
        have : c = m := List.mem_singleton.mp hc
        omega
      · exact lt_trans hbm (ih m hrest c hc)

theorem outsOk_chain (os : List CycleOut) :
    ∀ b : Int, OutsOk b os → List.Chain' (· ≤ ·) (commitsOf os) := by
  induction os with
  | nil => intro b _; exact List.chain'_nil
  | cons o os ih =>
    intro b h
    rcases h with ⟨hc0, _, hrest⟩ | ⟨m, hcm, _, _, _, hrest⟩
    · rw [commitsOf_cons, hc0, List.nil_append]
      exact ih b hrest
    · rw [commitsOf_cons, hcm, List.singleton_append]
      rw [List.chain'_cons']
      refine ⟨?_, ih m hrest⟩
      intro y hy
      have hmem : y ∈ commitsOf os := List.mem_of_mem_head? hy
      exact le_of_lt (outsOk_commits_lb os m hrest y hmem)

theorem outsOk_split :
    ∀ (pre : List CycleOut) (b : Int) (o : CycleOut) (post : List CycleOut),
      OutsOk b (pre ++ o :: post) → ∀ c ∈ o.commits,
        c ∈ o.pubs ∧ (∀ q ∈ pubsOf pre, q ≤ c) ∧ (∀ q ∈ o.pubs, q ≤ c) := by
  intro pre
  induction pre with
  | nil =>
    intro b o post h c hc
    rw [List.nil_append] at h
    rcases h with ⟨hc0, _, _⟩ | ⟨m, hcm, _, hmem, hub, _⟩
    · rw [hc0] at hc; exact absurd hc (List.not_mem_nil c)
    · rw [hcm] at hc
      have : c = m := List.mem_singleton.mp hc
      subst this
      refine ⟨hmem, ?_, hub⟩
      intro q hq
      rw [show pubsOf [] = [] from rfl] at hq
      exact absurd hq (List.not_mem_nil q)
  | cons o1 pre ih =>
    intro b o post h c hc
    rw [List.cons_append] at h
    rcases h with ⟨_, hp0, hrest⟩ | ⟨m, _, _, _, hub1, hrest⟩
    · have h2 := ih b o post hrest c hc
      refine ⟨h2.1, ?_, h2.2.2⟩
      intro q hq
      rw [pubsOf_cons, hp0, List.nil_append] at hq
      exact h2.2.1 q hq
    · have h2 := ih m o post hrest c hc
      refine ⟨h2.1, ?_, h2.2.2⟩
      intro q hq
      rw [pubsOf_cons, List.mem_append] at hq
      rcases hq with hq | hq
      · have hmc : c ∈ commitsOf (pre ++ o :: post) :=
          mem_commitsOf _ o c (by simp) hc
        have hmlt : m < c := outsOk_commits_lb _ m hrest c hmc
        have := hub1 q hq
        omega
      · exact h2.2.1 q hq

/-- C3: over any run of the sync loop in which every fetch honors the source
query contract (all delivered rows carry an int64 id strictly above the offset
the fetch was issued with), the sequence of values passed to the
tracking-table commit is non-decreasing; and every committed value is the id
of a row published in its own cycle and an upper bound for every id published
up to and including that cycle — that is, the maximum identity value of rows
successfully published so far. -/
theorem sync_commits_monotone (s : LoopState) (envs : List CycleEnv)
    (h0 : 0 ≤ s.lastSentId) (hg : goodTraceB s envs = true) :
    List.Chain' (· ≤ ·) (commitsOf (syncRun s envs).2) ∧
    (∀ c ∈ commitsOf (syncRun s envs).2, s.lastSentId < c) ∧
    (∀ pre o post, (syncRun s envs).2 = pre ++ o :: post →
      ∀ c ∈ o.commits, c ∈ o.pubs ∧ (∀ q ∈ pubsOf pre, q ≤ c) ∧ (∀ q ∈ o.pubs, q ≤ c)) := by
  have hOk := syncRun_outsOk envs s h0 hg
  refine ⟨outsOk_chain _ _ hOk, outsOk_commits_lb _ _ hOk, ?_⟩
  intro pre o post heq c hc
  rw [heq] at hOk
  exact outsOk_split pre s.lastSentId o post hOk c hc

def w3row1 : Row := [("id", GoValue.int64 5)]

def w3row2 : Row := [("id", GoValue.int64 9), ("name", GoValue.str "x")]

def w3s : LoopState := ⟨0, false⟩

def w3envs : List CycleEnv := [⟨some [w3row1], true, true⟩, ⟨some [w3row2], true, true⟩]

/-- C3 witness: a fresh loop over two successful cycles delivering ids 5 then 9. -/
theorem sync_commits_monotone_witness :
    (0 ≤ w3s.lastSentId ∧ goodTraceB w3s w3envs = true) ∧
    (List.Chain' (· ≤ ·) (commitsOf (syncRun w3s w3envs).2) ∧
    (∀ c ∈ commitsOf (syncRun w3s w3envs).2, w3s.lastSentId < c) ∧
    (∀ pre o post, (syncRun w3s w3envs).2 = pre ++ o :: post →
      ∀ c ∈ o.commits, c ∈ o.pubs ∧ (∀ q ∈ pubsOf pre, q ≤ c) ∧ (∀ q ∈ o.pubs, q ≤ c))) :=
  ⟨⟨by decide, by decide⟩, sync_commits_monotone w3s w3envs (by decide) (by decide)⟩

/-- C4: within one cycle of a live loop, a publish failure leaves the state and
outputs completely unchanged (so the next cycle re-fetches from the same
offset); and whenever the in-memory offset changes at all, the fetch returned
a nonempty batch whose publish succeeded, the new offset is exactly that
batch's max id, and exactly that value is passed to the commit — the offset
never advances to a value whose batch was not published. -/
theorem commit_only_after_publish (s : LoopState) (e : CycleEnv) (hh : s.halted = false) :
    (∀ data, e.fetched = some data → data ≠ [] → e.publishOk = false →
        syncCycle s e = (s, ⟨[], []⟩)) ∧
    (∀ s' out, syncCycle s e = (s', out) → s'.lastSentId ≠ s.lastSentId →
        ∃ data, e.fetched = some data ∧ data ≠ [] ∧ e.publishOk = true ∧
          s'.lastSentId = fetchMaxId data ∧ out.commits = [fetchMaxId data] ∧
          out.pubs = rowIds data) := by
  constructor
  · intro data hf hne hp
    have hl : 0 < data.length := List.length_pos.mpr hne
    simp [syncCycle, hh, hf, hl, hp]
  · intro s' out heq hchg
    rcases syncCycle_cases s e with hc | ⟨data, hf, hne, hp, _, hc⟩
    · rw [hc] at heq
      injection heq with h1 h2
      rw [← h1] at hchg
      exact absurd rfl hchg
    · rw [hc] at heq
      injection heq with h1 h2
      refine ⟨data, hf, hne, hp, ?_, ?_, ?_⟩
      · rw [← h1]
      · rw [← h2]
      · rw [← h2]

def w4s : LoopState := ⟨7, false⟩

def w4e : CycleEnv := ⟨some [[("id", GoValue.int64 9)]], false, true⟩

/-- C4 witness: a live loop at offset 7 facing a publish failure. -/
theorem commit_only_after_publish_witness :
    w4s.halted = false ∧
    ((∀ data, w4e.fetched = some data → data ≠ [] → w4e.publishOk = false →
        syncCycle w4s w4e = (w4s, ⟨[], []⟩)) ∧
    (∀ s' out, syncCycle w4s w4e = (s', out) → s'.lastSentId ≠ w4s.lastSentId →
        ∃ data, w4e.fetched = some data ∧ data ≠ [] ∧ w4e.publishOk = true ∧
          s'.lastSentId = fetchMaxId data ∧ out.commits = [fetchMaxId data] ∧
          out.pubs = rowIds data)) :=
  ⟨by decide, commit_only_after_publish w4s w4e (by decide)⟩

def w6data : List Row := [[("id", GoValue.int64 121)]]

def w6e : CycleEnv := ⟨some w6data, true, false⟩

def w6s : LoopState := ⟨120, false⟩

/-- C6 counterexample: at offset 120, after fetching the row with id 121,
publishing it, and failing the commit, the in-memory `tracking.LastSentID` is
121, not its prior value 120 — the source assigns `tracking.LastSentID =
lastID` (main.go:225) before attempting the upsert (main.go:226). -/
theorem commit_failure_advances_memory_cex :
    (syncCycle w6s w6e).1.lastSentId = 121 ∧
    ¬(syncCycle w6s w6e).1.lastSentId = w6s.lastSentId := by decide

/-- C6 amended: when the commit fails after a successful publish, the
in-memory offset has already been advanced to the batch's max id (it is set
before the upsert is attempted), and the loop then returns, so the halted loop
never fetches, publishes, or commits again and the advanced in-memory offset
never drives another cycle. -/
theorem commit_failure_halts (s : LoopState) (e : CycleEnv) (data : List Row)
    (hh : s.halted = false) (hf : e.fetched = some data) (hne : data ≠ [])
    (hp : e.publishOk = true) (hc : e.commitOk = false) :
    (syncCycle s e).1.lastSentId = fetchMaxId data ∧
    (syncCycle s e).1.halted = true ∧
    (syncCycle s e).2.commits = [fetchMaxId data] ∧
    (∀ e', syncCycle (syncCycle s e).1 e' = ((syncCycle s e).1, ⟨[], []⟩)) := by
  have hl : 0 < data.length := List.length_pos.mpr hne
  have hcy : syncCycle s e = (⟨fetchMaxId data, true⟩, ⟨[fetchMaxId data], rowIds data⟩) := by
    simp [syncCycle, hh, hf, hl, hp, hc]
  rw [hcy]
  exact ⟨rfl, rfl, rfl, fun e' => syncCycle_halted (fetchMaxId data) e'⟩

/-- C6 witness for the amended statement: the same concrete failing commit. -/
theorem commit_failure_halts_witness :
    (w6s.halted = false ∧ w6e.fetched = some w6data ∧ w6data ≠ [] ∧
      w6e.publishOk = true ∧ w6e.commitOk = false) ∧
    ((syncCycle w6s w6e).1.lastSentId = fetchMaxId w6data ∧
    (syncCycle w6s w6e).1.halted = true ∧
    (syncCycle w6s w6e).2.commits = [fetchMaxId w6data] ∧
    (∀ e', syncCycle (syncCycle w6s w6e).1 e' = ((syncCycle w6s w6e).1, ⟨[], []⟩))) :=
  ⟨⟨rfl, rfl, by decide, rfl, rfl⟩,
    commit_failure_halts w6s w6e w6data rfl rfl (by decide) rfl rfl⟩

/-- C10: when a nonempty fetched batch contains no row whose `id` value is of
Go type int64 (for example the driver delivered the column as bytes), the type
assertion in `fetchData` fails for every row, `maxID` keeps its zero initial
value, and a successful publish-commit cycle sets and commits the table's
offset to 0 regardless of its previous value. -/
theorem missing_id_resets_offset (s : LoopState) (e : CycleEnv) (data : List Row)
    (hh : s.halted = false) (hf : e.fetched = some data) (hne : data ≠ [])
    (hids : ∀ r ∈ data, rowId r = none) (hp : e.publishOk = true) (hc : e.commitOk = true) :
    (syncCycle s e).1.lastSentId = 0 ∧ (syncCycle s e).2.commits = [(0 : Int)] := by
  have hl : 0 < data.length := List.length_pos.mpr hne
  have hmax : fetchMaxId data = 0 := foldl_maxIdStep_none data 0 hids
  have hcy : syncCycle s e = (⟨fetchMaxId data, false⟩, ⟨[fetchMaxId data], rowIds data⟩) := by
    simp [syncCycle, hh, hf, hl, hp, hc]
  rw [hcy]
  exact ⟨hmax, by rw [hmax]⟩

def w10data : List Row := [[("id", GoValue.bytes [49, 50, 51])], [("name", GoValue.str "a")]]

def w10e : CycleEnv := ⟨some w10data, true, true⟩

def w10s : LoopState := ⟨120, false⟩

/-- C10 witness: at offset 120, a batch whose `id` arrives as bytes resets the
committed offset to 0. -/
theorem missing_id_resets_offset_witness :
    (w10s.halted = false ∧ w10e.fetched = some w10data ∧ w10data ≠ [] ∧
      (∀ r ∈ w10data, rowId r = none) ∧ w10e.publishOk = true ∧ w10e.commitOk = true) ∧
    ((syncCycle w10s w10e).1.lastSentId = 0 ∧ (syncCycle w10s w10e).2.commits = [(0 : Int)]) :=
  ⟨⟨rfl, rfl, by decide, by decide, rfl, rfl⟩,
    missing_id_resets_offset w10s w10e w10data rfl rfl (by decide) (by decide) rfl rfl⟩

/-! ## Query strings (`fetchData` src/main.go:166, `GetSchema` src/main.go:72-77) -/

/-- The backtick escaping `GetSchema` applies to table names before
interpolation: `fmt.Sprintf("`%s`", tableName)` (main.go:73). -/
def escapeTableName (t : String) : String := "`" ++ t ++ "`"

/-- The query text `fetchData` builds:
`fmt.Sprintf("SELECT * FROM %s WHERE id > ? ORDER BY id ASC LIMIT 1000", tableName)`
(main.go:166) — the table name is interpolated as-is. -/
def fetchQuery (t : String) : String :=
  "SELECT * FROM " ++ t ++ " WHERE id > ? ORDER BY id ASC LIMIT 1000"

/-- The query text `GetSchema` builds for columns:
`fmt.Sprintf("DESCRIBE %s", tableName)` after escaping (main.go:73-77). -/
def describeQuery (t : String) : String := "DESCRIBE " ++ escapeTableName t

/-- C7: `fetchData` interpolates the table name into the query text without
any sanitization or escaping — for the reserved identifier `order` the query
text carries the bare word where `GetSchema`'s own escaping (shown alongside)
would produce a backtick-quoted identifier; a crafted table name even splices
a second WHERE clause into the statement, altering its structure. The claimed
shape of the predicate (`id > ?`, ascending, LIMIT 1000) is as stated, but the
claimed sanitization is absent. -/
theorem fetch_query_unescaped :
    fetchQuery ("order") = "SELECT * FROM order WHERE id > ? ORDER BY id ASC LIMIT 1000" ∧
    fetchQuery ("order") ≠ "SELECT * FROM `order` WHERE id > ? ORDER BY id ASC LIMIT 1000" ∧
    fetchQuery (escapeTableName ("order"))
      = "SELECT * FROM `order` WHERE id > ? ORDER BY id ASC LIMIT 1000" ∧
    describeQuery ("order") = "DESCRIBE `order`" ∧
    fetchQuery ("accounts WHERE 1=1; -- ")
      = "SELECT * FROM accounts WHERE 1=1; --  WHERE id > ? ORDER BY id ASC LIMIT 1000" := by
  refine ⟨rfl, ?_, rfl, rfl, rfl⟩
  decide

/-! ## Startup and the goroutine spawn loop (`main`, src/main.go:297-313) -/

/-- The tracked-table entry `TrackingTable` (main.go:42-45). -/
structure TrackingTable where
  tableName : String
  lastSentID : Int
deriving DecidableEq

/-- The static tracking list `main` constructs (main.go:298-305): every
`LastSentID` is the literal 0; `main` never reads `tracking_table` back. -/
def mainTrackingTables : List TrackingTable :=
  [⟨"accounts", 0⟩, ⟨"account_balances", 0⟩, ⟨"attendance", 0⟩,
   ⟨"account_orders", 0⟩, ⟨"asset_masters", 0⟩]

/-- The offset a table's sync loop starts from after a process (re)start, as
`main` computes it: the hard-coded entry of `mainTrackingTables`, defaulting
to 0 — the durable store is not consulted. -/
def startupOffset (t : String) : Int :=
  (((mainTrackingTables.filter (fun e => e.tableName == t)).head?).map
    TrackingTable.lastSentID).getD 0

/-- Modelled from the spec: §4.1 `get(table_name)` of the Offset Store returns
the last committed identity value for the table, or 0 if never synced; this is
the restart-offset a resuming loop is specified to use, stated here only for
the refinement comparison with `startupOffset`, since `main` itself contains
no read of `tracking_table`. -/
def specRestartOffset (store : List (String × Int)) (t : String) : Int :=
  (((store.filter (fun e => e.1 == t)).head?).map (fun e => e.2)).getD 0

def insertAsc (x : Int) : List Int → List Int
  | [] => [x]
  | y :: ys => if x ≤ y then x :: y :: ys else y :: insertAsc x ys

def sortAsc : List Int → List Int
  | [] => []
  | x :: xs => insertAsc x (sortAsc xs)

/-- The effect of `fetchData`'s query on a well-typed table, reduced to the
`id` column: `SELECT * FROM t WHERE id > ? ORDER BY id ASC LIMIT 1000`
(main.go:166). -/
def fetchIds (tableIds : List Int) (since : Int) : List Int :=
  (sortAsc (tableIds.filter (fun i => since < i))).take 1000

/-- C1: resume after restart fails — with a committed offset of 120 for
`accounts` durably stored, a restarted process starts that table's loop at
offset 0 (`main` hard-codes `LastSentID: 0` and never reads `tracking_table`),
so the first fetch re-delivers the already-committed row 60; a loop honoring
the stored offset, as the spec requires, would fetch only row 130. -/
theorem restart_ignores_committed_offset :
    specRestartOffset [("accounts", 120)] ("accounts") = 120 ∧
    startupOffset ("accounts") = 0 ∧
    fetchIds [130, 60] (startupOffset ("accounts")) = [60, 130] ∧
    ((60 : Int) ∈ fetchIds [130, 60] (startupOffset ("accounts")) ∧ (60 : Int) ≤ 120) ∧
    fetchIds [130, 60] (specRestartOffset [("accounts", 120)] ("accounts")) = [130] := by
  decide

/-- A goroutine spawned by `main`'s loop: the `tableName` argument value at
the `go` statement, and the address passed as the `*TrackingTable` argument. -/
structure SpawnedLoop where
  tableNameArg : String
  trackingPtr : Nat
deriving DecidableEq

/-- The address of the single range variable `tracking`. -/
def rangeVarAddr : Nat := 0

/-- The goroutine spawn loop of `main` (src/main.go:307-310) under Go
(pre-1.22) for-range semantics, which the repository's vintage (jinzhu/gorm,
pre-generics style) dates it to: `for _, tracking := range trackingTables`
declares one variable `tracking` reused across iterations, so the argument
`&tracking` denotes the same address in every iteration, while
`tracking.TableName` is copied at spawn time and differs per iteration. -/
def mainSpawns : List SpawnedLoop :=
  mainTrackingTables.map (fun t => ⟨t.tableName, rangeVarAddr⟩)

/-- C9: the five spawned sync loops carry five distinct table names but all
receive a pointer to the same `TrackingTable` variable, so each loop reads and
writes in-memory offset state shared with every other loop — per-table
exclusive ownership of the tracking entry does not hold. -/
theorem spawned_loops_share_tracking :
    (mainSpawns.map SpawnedLoop.tableNameArg).Nodup ∧
    mainSpawns.map SpawnedLoop.trackingPtr
      = [rangeVarAddr, rangeVarAddr, rangeVarAddr, rangeVarAddr, rangeVarAddr] ∧
    (∃ a, a ∈ mainSpawns ∧ ∃ b, b ∈ mainSpawns ∧
      a.tableNameArg ≠ b.tableNameArg ∧ a.trackingPtr = b.trackingPtr) := by
  refine ⟨by decide, by decide, ?_⟩
  exact ⟨⟨"accounts", rangeVarAddr⟩, by decide, ⟨"attendance", rangeVarAddr⟩, by decide,
    by decide, rfl⟩
